import Mathlib

/-!
Verification of the commit-mirroring tool (`main.py`).

The script is embedded shallowly:

* `PyDateTime` models `datetime.datetime` values as the tool uses them:
  timezone-aware, fixed `±HH:MM` offset, precision to the second — exactly the
  shape produced by `git log --format=%aI` and by `datetime.isoformat()` on
  such values.  `fromisoformatChars` models `datetime.fromisoformat` on this
  format (other inputs are rejected, as the concrete witnesses used below also
  are by CPython).
* The two anchored regexes `SOURCE_LOG_RE` and `SYNCED_LOG_RE` are embedded as
  the deterministic matchers `matchSourceLine` and `matchSyncedLine`.  Every
  character class in the patterns excludes the literal separator that follows
  it, so greedy matching with backtracking coincides with maximal-munch
  splitting at the separators; the matchers implement that splitting.
* External `git` invocations are treated as external collaborators: log output is supplied
  as lines, and the mutating calls (`git commit`, `git rebase`) are recorded
  as `Mutation` values rather than executed.  `mainRun` models `main`.
-/

/-- Decimal digit character, `chr(48 + n)` for `n ≤ 9`. -/
def digitChar (n : Nat) : Char := Char.ofNat (48 + n)

def isDigitChar (c : Char) : Bool := '0' ≤ c && c ≤ '9'

def digitVal (c : Char) : Nat := c.toNat - 48

/-- Zero-padded two-digit rendering (`%02d`, for values below 100). -/
def pad2 (n : Nat) : List Char := [digitChar (n / 10), digitChar (n % 10)]

/-- Zero-padded four-digit rendering (`%04d`, for values below 10000). -/
def pad4 (n : Nat) : List Char :=
  [digitChar (n / 1000), digitChar (n / 100 % 10), digitChar (n / 10 % 10), digitChar (n % 10)]

/-- A timezone-aware `datetime.datetime` with a fixed `±HH:MM` offset and
second precision, the only shape of timestamp the tool ever handles.
`tzNonneg` is the sign of the UTC offset; a zero offset is canonically
non-negative (CPython renders the zero offset as `+00:00`). -/
structure PyDateTime where
  year : Nat
  month : Nat
  day : Nat
  hour : Nat
  minute : Nat
  second : Nat
  tzNonneg : Bool
  tzHour : Nat
  tzMinute : Nat
deriving DecidableEq, Hashable

def isLeapYear (y : Nat) : Bool := (y % 4 == 0 && y % 100 != 0) || y % 400 == 0

def daysInMonth (y m : Nat) : Nat :=
  if m == 2 then (if isLeapYear y then 29 else 28)
  else if m == 4 || m == 6 || m == 9 || m == 11 then 30
  else 31

/-- Range validity as enforced by `datetime.datetime`'s constructor, plus the
canonical sign on a zero offset. -/
def PyDateTime.valid (t : PyDateTime) : Bool :=
  decide (1 ≤ t.year ∧ t.year ≤ 9999 ∧ 1 ≤ t.month ∧ t.month ≤ 12 ∧
    1 ≤ t.day ∧ t.day ≤ daysInMonth t.year t.month ∧
    t.hour ≤ 23 ∧ t.minute ≤ 59 ∧ t.second ≤ 59 ∧
    t.tzHour ≤ 23 ∧ t.tzMinute ≤ 59 ∧
    (t.tzHour = 0 ∧ t.tzMinute = 0 → t.tzNonneg = true))

/-- `datetime.isoformat()`: `YYYY-MM-DDTHH:MM:SS±HH:MM`. -/
def isoformatChars (t : PyDateTime) : List Char :=
  pad4 t.year ++ '-' :: (pad2 t.month ++ '-' :: (pad2 t.day ++ 'T' ::
    (pad2 t.hour ++ ':' :: (pad2 t.minute ++ ':' :: (pad2 t.second ++
    (if t.tzNonneg then '+' else '-') ::
    (pad2 t.tzHour ++ ':' :: pad2 t.tzMinute))))))

def PyDateTime.isoformat (t : PyDateTime) : String := String.mk (isoformatChars t)

def read2 : List Char → Option (Nat × List Char)
  | a :: b :: rest =>
    if isDigitChar a && isDigitChar b then some (10 * digitVal a + digitVal b, rest) else none
  | _ => none

def read4 : List Char → Option (Nat × List Char)
  | a :: b :: c :: d :: rest =>
    if isDigitChar a && isDigitChar b && isDigitChar c && isDigitChar d then
      some (1000 * digitVal a + 100 * digitVal b + 10 * digitVal c + digitVal d, rest)
    else none
  | _ => none

def expectChar (c : Char) : List Char → Option (List Char)
  | x :: rest => if x = c then some rest else none
  | [] => none

def readSign : List Char → Option (Bool × List Char)
  | x :: rest =>
    if x = '+' then some (true, rest) else if x = '-' then some (false, rest) else none
  | [] => none

/-- `datetime.fromisoformat` on the fixed-offset, second-precision format;
returns `none` where CPython raises `ValueError`.  A parsed `-00:00` offset
denotes the same value as `+00:00` and is normalised to it, mirroring
`timedelta` equality. -/
def fromisoformatChars (cs : List Char) : Option PyDateTime :=
  match read4 cs with
  | none => none
  | some (y, cs) =>
  match expectChar '-' cs with
  | none => none
  | some cs =>
  match read2 cs with
  | none => none
  | some (mo, cs) =>
  match expectChar '-' cs with
  | none => none
  | some cs =>
  match read2 cs with
  | none => none
  | some (d, cs) =>
  match expectChar 'T' cs with
  | none => none
  | some cs =>
  match read2 cs with
  | none => none
  | some (h, cs) =>
  match expectChar ':' cs with
  | none => none
  | some cs =>
  match read2 cs with
  | none => none
  | some (mi, cs) =>
  match expectChar ':' cs with
  | none => none
  | some cs =>
  match read2 cs with
  | none => none
  | some (s, cs) =>
  match readSign cs with
  | none => none
  | some (sg, cs) =>
  match read2 cs with
  | none => none
  | some (oh, cs) =>
  match expectChar ':' cs with
  | none => none
  | some cs =>
  match read2 cs with
  | none => none
  | some (om, cs) =>
  if cs = [] then
    let t : PyDateTime :=
      ⟨y, mo, d, h, mi, s, sg || (oh == 0 && om == 0), oh, om⟩
    if t.valid then some t else none
  else none

def fromisoformat (s : String) : Option PyDateTime := fromisoformatChars s.data

theorem digitChar_spec (k : Nat) (hk : k ≤ 9) :
    isDigitChar (digitChar k) = true ∧ digitVal (digitChar k) = k := by
  interval_cases k <;> exact ⟨by decide, by decide⟩

theorem read2_pad2 (n : Nat) (hn : n ≤ 99) (rest : List Char) :
    read2 (pad2 n ++ rest) = some (n, rest) := by
  have h1 := digitChar_spec (n / 10) (by omega)
  have h2 := digitChar_spec (n % 10) (by omega)
  simp only [pad2, List.cons_append, List.nil_append, read2, h1.1, h1.2, h2.1, h2.2,
    Bool.and_self, if_pos]
  have hx : 10 * (n / 10) + n % 10 = n := by omega
  rw [hx]

theorem read4_pad4 (n : Nat) (hn : n ≤ 9999) (rest : List Char) :
    read4 (pad4 n ++ rest) = some (n, rest) := by
  have h1 := digitChar_spec (n / 1000) (by omega)
  have h2 := digitChar_spec (n / 100 % 10) (by omega)
  have h3 := digitChar_spec (n / 10 % 10) (by omega)
  have h4 := digitChar_spec (n % 10) (by omega)
  simp only [pad4, List.cons_append, List.nil_append, read4, h1.1, h1.2, h2.1, h2.2,
    h3.1, h3.2, h4.1, h4.2, Bool.and_self, if_pos]
  have hx : 1000 * (n / 1000) + 100 * (n / 100 % 10) + 10 * (n / 10 % 10) + n % 10 = n := by
    omega
  rw [hx]

theorem expectChar_cons (c : Char) (rest : List Char) :
    expectChar c (c :: rest) = some rest := by
  simp [expectChar]

theorem daysInMonth_le (y m : Nat) : daysInMonth y m ≤ 31 := by
  unfold daysInMonth
  split
  · split <;> omega
  · split <;> omega

/-- Parsing inverts rendering on every valid datetime. -/
theorem fromisoformat_isoformat (t : PyDateTime) (ht : t.valid = true) :
    fromisoformatChars (isoformatChars t) = some t := by
  have hb : 1 ≤ t.year ∧ t.year ≤ 9999 ∧ 1 ≤ t.month ∧ t.month ≤ 12 ∧
      1 ≤ t.day ∧ t.day ≤ daysInMonth t.year t.month ∧
      t.hour ≤ 23 ∧ t.minute ≤ 59 ∧ t.second ≤ 59 ∧
      t.tzHour ≤ 23 ∧ t.tzMinute ≤ 59 ∧
      (t.tzHour = 0 ∧ t.tzMinute = 0 → t.tzNonneg = true) :=
    of_decide_eq_true ht
  obtain ⟨h1, h2, h3, h4, h5, h6, h7, h8, h9, h10, h11, h12⟩ := hb
  have hday : t.day ≤ 99 := by
    have := daysInMonth_le t.year t.month
    omega
  have e1 := read4_pad4 t.year (by omega)
  have e2 := read2_pad2 t.month (by omega)
  have e3 := read2_pad2 t.day (by omega)
  have e4 := read2_pad2 t.hour (by omega)
  have e5 := read2_pad2 t.minute (by omega)
  have e6 := read2_pad2 t.second (by omega)
  have e7 := read2_pad2 t.tzHour (by omega)
  have e8 := read2_pad2 t.tzMinute (by omega)
  have hsign : ∀ rest : List Char,
      readSign ((if t.tzNonneg then '+' else '-') :: rest) = some (t.tzNonneg, rest) := by
    intro rest
    cases hx : t.tzNonneg <;> simp [readSign]
  have hnorm : (t.tzNonneg || (t.tzHour == 0 && t.tzMinute == 0)) = t.tzNonneg := by
    cases hx : t.tzNonneg
    · simp only [Bool.false_or]
      rw [Bool.eq_false_iff]
      intro hc
      rw [Bool.and_eq_true, beq_iff_eq, beq_iff_eq] at hc
      have := h12 hc
      rw [hx] at this
      exact Bool.false_ne_true this
    · rfl
  have e8' : read2 (pad2 t.tzMinute) = some (t.tzMinute, []) := by
    have := e8 []
    rwa [List.append_nil] at this
  simp [isoformatChars, fromisoformatChars, e1, e2, e3, e4, e5, e6, e7, e8, e8',
    hsign, hnorm, expectChar_cons, ht]

/-! ## Commit records and the two log-line regexes -/

/-- The `Commit` class: `sync_target_sha` is `none` for source-derived
commits and set for commits read back from the sync repository. -/
structure Commit where
  project_id : String
  sha : String
  timestamp : PyDateTime
  sync_target_sha : Option String := none
deriving DecidableEq

/-- `Commit._to_tuple`. -/
def Commit.toTuple (c : Commit) : String × String × PyDateTime :=
  (c.project_id, c.sha, c.timestamp)

/-- `Commit.__eq__`: equality on `(project_id, sha, timestamp)` only. -/
def commitEq (c d : Commit) : Bool := decide (c.toTuple = d.toTuple)

/-- `Commit.__hash__`: the hash of `_to_tuple()`. -/
def commitHash (c : Commit) : UInt64 := hash c.toTuple

abbrev CommitKey := String × String × PyDateTime

/-- `[a-f0-9]`. -/
def isHexLower (c : Char) : Bool := ('a' ≤ c && c ≤ 'f') || ('0' ≤ c && c ≤ '9')

/-- `\w` on the ASCII range handled by the tool: `[a-zA-Z0-9_]`. -/
def isWordChar (c : Char) : Bool := c.isAlphanum || c == '_'

/-- Longest prefix of characters satisfying `p`, and the remainder. -/
def spanWhile (p : Char → Bool) : List Char → List Char × List Char
  | [] => ([], [])
  | c :: cs =>
    if p c then
      let r := spanWhile p cs
      (c :: r.1, r.2)
    else ([], c :: cs)

/-- Strips an expected literal prefix, returning the remainder. -/
def stripLit : List Char → List Char → Option (List Char)
  | [], rest => some rest
  | _ :: _, [] => none
  | l :: ls, c :: cs => if c = l then stripLit ls cs else none

structure SourceGroups where
  sha : List Char
  email : List Char
  timestamp : List Char
deriving DecidableEq

/-- `SOURCE_LOG_RE`: `^(?P<sha>[a-f0-9]+),(?P<email>[^,]+),(?P<timestamp>[^ ]+)$`.
Each class excludes the separator that follows it, so the greedy match is the
maximal-munch split implemented here. -/
def matchSourceLine (cs : List Char) : Option SourceGroups :=
  let r1 := spanWhile isHexLower cs
  match r1.2 with
  | ',' :: r2 =>
    let r3 := spanWhile (fun c => !(c == ',')) r2
    match r3.2 with
    | ',' :: ts =>
      if r1.1 ≠ [] ∧ r3.1 ≠ [] ∧ ts ≠ [] ∧ ts.all (fun c => !(c == ' ')) = true then
        some ⟨r1.1, r3.1, ts⟩
      else none
    | _ => none
  | _ => none

structure SyncedGroups where
  sync_target_sha : List Char
  timestamp : List Char
  project_id : List Char
  sha : List Char
deriving DecidableEq

def syncedMessageLit : List Char := "Synced from ".data

/-- `SYNCED_LOG_RE`:
`^(?P<sync_target_sha>[^,]+),(?P<timestamp>[^,]+),Synced from (?P<project_id>\w+):(?P<sha>[a-f0-9]+)$`. -/
def matchSyncedLine (cs : List Char) : Option SyncedGroups :=
  let r1 := spanWhile (fun c => !(c == ',')) cs
  match r1.2 with
  | ',' :: r2 =>
    let r3 := spanWhile (fun c => !(c == ',')) r2
    match r3.2 with
    | ',' :: rest =>
      match stripLit syncedMessageLit rest with
      | none => none
      | some r4 =>
        let r5 := spanWhile isWordChar r4
        match r5.2 with
        | ':' :: sha =>
          if r1.1 ≠ [] ∧ r3.1 ≠ [] ∧ r5.1 ≠ [] ∧ sha ≠ [] ∧ sha.all isHexLower = true then
            some ⟨r1.1, r3.1, r5.1, sha⟩
          else none
        | _ => none
    | _ => none
  | _ => none

/-! ## Errors, log readers, and the mutating git calls -/

inductive PyError where
  | runtimeError (line : String)
  | valueError (text : String)
  | keyError (key : String)
deriving DecidableEq

/-- `get_commits_from_source`, applied to the lines of
`git log --format=%H,%ae,%aI` run in the project's `git-root`.  A line that
fails the regex raises `RuntimeError`; an included line whose timestamp is not
ISO-8601 raises `ValueError` from `fromisoformat`; otherwise commits are
yielded in line order for lines whose email is in `include_emails`. -/
def get_commits_from_source (project_id : String) (include_emails : List String) :
    List String → Except PyError (List Commit)
  | [] => .ok []
  | line :: rest =>
    match matchSourceLine line.data with
    | none => .error (.runtimeError line)
    | some g =>
      if String.mk g.email ∈ include_emails then
        match fromisoformatChars g.timestamp with
        | none => .error (.valueError (String.mk g.timestamp))
        | some ts =>
          match get_commits_from_source project_id include_emails rest with
          | .error e => .error e
          | .ok cs => .ok (Commit.mk project_id (String.mk g.sha) ts none :: cs)
      else get_commits_from_source project_id include_emails rest

/-- `get_synced_commits`, applied to the lines of
`git log --format=%H,%aI,%s` run in the sync repository.  Non-matching lines
are silently skipped; matching lines yield a Commit with `sync_target_sha`
set, raising `ValueError` on an unparseable timestamp field. -/
def get_synced_commits : List String → Except PyError (List Commit)
  | [] => .ok []
  | line :: rest =>
    match matchSyncedLine line.data with
    | none => get_synced_commits rest
    | some g =>
      match fromisoformatChars g.timestamp with
      | none => .error (.valueError (String.mk g.timestamp))
      | some ts =>
        match get_synced_commits rest with
        | .error e => .error e
        | .ok cs =>
          .ok (Commit.mk (String.mk g.project_id) (String.mk g.sha) ts
            (some (String.mk g.sync_target_sha)) :: cs)

/-- The `git commit` invocation issued by `add_commit`: empty commit, fixed
message, and the two environment entries laid over `os.environ`.  Note the
second key is the literal (misspelled) `GIT_COMMIRTER_DATE` from the source. -/
structure GitCommitCall where
  allow_empty : Bool
  message : String
  envEntries : List (String × String)
deriving DecidableEq

def add_commit (c : Commit) : GitCommitCall :=
  { allow_empty := true
    message := "Synced from " ++ c.project_id ++ ":" ++ c.sha
    envEntries :=
      [("GIT_AUTHOR_DATE", c.timestamp.isoformat),
       ("GIT_COMMIRTER_DATE", c.timestamp.isoformat)] }

/-- Lookup in the overriding environment entries of a `GitCommitCall`
(later entries win, as in a Python dict literal). -/
def envLookup (key : String) (call : GitCommitCall) : Option String :=
  ((call.envEntries.filter (fun kv => kv.1 == key)).map (fun kv => kv.2)).getLast?

/-! ## The pipeline of `main` -/

structure Project where
  id : String
  git_root : String
deriving DecidableEq

/-- The configuration mapping: `include-emails`, `projects`, `sync-repo`. -/
structure Config where
  include_emails : List String
  projects : List Project
  sync_repo : String

/-- One run's external inputs: the configuration, the source log lines per
`git-root`, the sync repository's log lines, and the operator's answer to the
confirmation prompt. -/
structure RunEnv where
  config : Config
  sourceLog : String → List String
  syncLog : List String
  answer : String

/-- A mutation of the sync repository: a history-rewriting removal
(`remove_commit`, i.e. `git rebase --onto sha^ sha`) or a commit creation
(`add_commit`). -/
inductive Mutation where
  | removeCall (git_root : String) (sync_target_sha : Option String)
  | addCall (git_root : String) (call : GitCommitCall)
deriving DecidableEq

def Mutation.isAdd : Mutation → Bool
  | .addCall _ _ => true
  | .removeCall _ _ => false

/-- Outcome of a run, with the sync-repository mutations performed before the
run ended.  `exited` is normal completion (process exit status 0); every
other outcome makes the process exit non-zero: `quit` is
`sys.exit("Quitting.")` (message printed, exit status 1), `assertFailed` an
`AssertionError`, `error` an uncaught exception. -/
inductive RunResult where
  | exited (muts : List Mutation)
  | quit (muts : List Mutation)
  | assertFailed (muts : List Mutation)
  | error (e : PyError) (muts : List Mutation)
deriving DecidableEq

def RunResult.mutations : RunResult → List Mutation
  | .exited m => m
  | .quit m => m
  | .assertFailed m => m
  | .error _ m => m

def RunResult.exitCode : RunResult → Nat
  | .exited _ => 0
  | _ => 1

/-- Python set difference under `Commit.__eq__`: members of `xs` having no
equal member in `ys`. -/
def setDiffC (xs ys : List Commit) : List Commit :=
  xs.filter (fun c => !(ys.any (commitEq c)))

/-- Collapse a list into Python-set membership order: the first occurrence of
each `__eq__`-class is kept. -/
def dedupByKey : List Commit → List Commit
  | [] => []
  | c :: cs => c :: (dedupByKey cs).filter (fun d => !(commitEq c d))

def keysOf (l : List Commit) : Finset CommitKey := (l.map Commit.toTuple).toFinset

def shasOf (l : List Commit) : Finset String := (l.map Commit.sha).toFinset

/-- The asserted sanity invariant of `main`:
`{i.sha for i in source - synced} == {i.sha for i in source} - {i.sha for i in synced}`. -/
def shaInvariant (src syn : List Commit) : Bool :=
  decide (shasOf (setDiffC src syn) = shasOf src \ shasOf syn)

/-- The Reconciler's creation set, `source_commits - synced_commits`, as set
algebra on commit keys. -/
def to_create (A B : Finset CommitKey) : Finset CommitKey := A \ B

/-- The Reconciler's removal set, `synced_commits - source_commits`. -/
def to_remove (A B : Finset CommitKey) : Finset CommitKey := B \ A

/-- The dict comprehension `{project["id"]: project["git-root"] ...}` (later
entries overwrite earlier ones), looked up at a project id. -/
def lookupGitRoot (ps : List Project) (pid : String) : Option String :=
  ((ps.filter (fun p => p.id == pid)).map Project.git_root).getLast?

/-- The first commit of the removal display loop whose `project_id` lookup
raises `KeyError`. -/
def firstMissingProject (ps : List Project) (cs : List Commit) : Option Commit :=
  cs.find? (fun c => (lookupGitRoot ps c.project_id).isNone)

/-- The tail of `main` after both reads: the assert guarding the creation
loop, run after any removals (`muts`) already performed. -/
def createPhase (cfg : Config) (source_commits synced_commits : List Commit)
    (muts : List Mutation) : RunResult :=
  if shaInvariant source_commits synced_commits then
    .exited (muts ++ (setDiffC source_commits synced_commits).map
      (fun c => Mutation.addCall cfg.sync_repo (add_commit c)))
  else .assertFailed muts

/-- `main` from the two in-memory commit sets on: the removal block
(display loop with its dict lookups, confirmation prompt, removals), then the
assert, then the creation loop. -/
def runReconcile (cfg : Config) (src syn : List Commit) (answer : String) : RunResult :=
  let source_commits := dedupByKey src
  let synced_commits := dedupByKey syn
  let commits_to_remove := setDiffC synced_commits source_commits
  if commits_to_remove = [] then createPhase cfg source_commits synced_commits []
  else
    match firstMissingProject cfg.projects commits_to_remove with
    | some c => .error (.keyError c.project_id) []
    | none =>
      if answer = "y" then
        createPhase cfg source_commits synced_commits
          (commits_to_remove.map (fun c => Mutation.removeCall cfg.sync_repo c.sync_target_sha))
      else .quit []

/-- The union of the per-project Source Log Reader outputs, in project order
(the successive `source_commits.update(...)` calls). -/
def readSources (include_emails : List String) (logs : String → List String) :
    List Project → Except PyError (List Commit)
  | [] => .ok []
  | p :: ps =>
    match get_commits_from_source p.id include_emails (logs p.git_root) with
    | .error e => .error e
    | .ok cs =>
      match readSources include_emails logs ps with
      | .error e => .error e
      | .ok rest => .ok (cs ++ rest)

def sourceCommitsOf (env : RunEnv) : Except PyError (List Commit) :=
  readSources env.config.include_emails env.sourceLog env.config.projects

def syncedRawOf (env : RunEnv) : Except PyError (List Commit) :=
  get_synced_commits env.syncLog

/-- The whole of `main` for one invocation. -/
def mainRun (env : RunEnv) : RunResult :=
  match sourceCommitsOf env with
  | .error e => .error e []
  | .ok src =>
    match syncedRawOf env with
    | .error e => .error e []
    | .ok syn => runReconcile env.config src syn env.answer

/-- The Reconciler's `to_create`, as `main` computes it from the run inputs. -/
def toCreateOf (env : RunEnv) : Except PyError (List Commit) :=
  match sourceCommitsOf env with
  | .error e => .error e
  | .ok src =>
    match syncedRawOf env with
    | .error e => .error e
    | .ok syn => .ok (setDiffC (dedupByKey src) (dedupByKey syn))

/-- The Reconciler's `to_remove` list as `main` computes it. -/
def toRemoveOf (env : RunEnv) : Except PyError (List Commit) :=
  match sourceCommitsOf env with
  | .error e => .error e
  | .ok src =>
    match syncedRawOf env with
    | .error e => .error e
    | .ok syn => .ok (setDiffC (dedupByKey syn) (dedupByKey src))

/-- The mirror log line the claimed round trip starts from: the sync repo's
`git log --format=%H,%aI,%s` output for a commit created by `add_commit` —
the mirror's own hash, the author date pinned to the Commit's timestamp, and
the message written by `add_commit`. -/
def mirrorLogLine (mirrorHash : String) (c : Commit) : String :=
  mirrorHash ++ "," ++ c.timestamp.isoformat ++ "," ++ (add_commit c).message

/-! ## Matcher lemmas -/

theorem spanWhile_append (p : Char → Bool) (xs : List Char)
    (hxs : ∀ x ∈ xs, p x = true) (y : Char) (hy : p y = false) (rest : List Char) :
    spanWhile p (xs ++ y :: rest) = (xs, y :: rest) := by
  induction xs with
  | nil => simp [spanWhile, hy]
  | cons a as ih =>
    have ha : p a = true := hxs a (by simp)
    have ih' := ih (fun x hx => hxs x (by simp [hx]))
    simp [spanWhile, ha, ih']

theorem stripLit_append (ls rest : List Char) : stripLit ls (ls ++ rest) = some rest := by
  induction ls with
  | nil => rfl
  | cons a as ih => simp [stripLit, ih]

theorem digitChar_sep (k : Nat) (hk : k ≤ 9) : digitChar k ≠ ',' ∧ digitChar k ≠ ' ' := by
  interval_cases k <;> exact ⟨by decide, by decide⟩

theorem mem_pad2_sep (n : Nat) (hn : n ≤ 99) (c : Char) (hc : c ∈ pad2 n) :
    c ≠ ',' ∧ c ≠ ' ' := by
  simp only [pad2, List.mem_cons, List.not_mem_nil, or_false] at hc
  rcases hc with rfl|rfl
  · exact digitChar_sep _ (by omega)
  · exact digitChar_sep _ (by omega)

theorem mem_pad4_sep (n : Nat) (hn : n ≤ 9999) (c : Char) (hc : c ∈ pad4 n) :
    c ≠ ',' ∧ c ≠ ' ' := by
  simp only [pad4, List.mem_cons, List.not_mem_nil, or_false] at hc
  rcases hc with rfl|rfl|rfl|rfl
  · exact digitChar_sep _ (by omega)
  · exact digitChar_sep _ (by omega)
  · exact digitChar_sep _ (by omega)
  · exact digitChar_sep _ (by omega)

theorem isoformatChars_sep (t : PyDateTime) (ht : t.valid = true) :
    ∀ c ∈ isoformatChars t, c ≠ ',' ∧ c ≠ ' ' := by
  have hb : 1 ≤ t.year ∧ t.year ≤ 9999 ∧ 1 ≤ t.month ∧ t.month ≤ 12 ∧
      1 ≤ t.day ∧ t.day ≤ daysInMonth t.year t.month ∧
      t.hour ≤ 23 ∧ t.minute ≤ 59 ∧ t.second ≤ 59 ∧
      t.tzHour ≤ 23 ∧ t.tzMinute ≤ 59 ∧
      (t.tzHour = 0 ∧ t.tzMinute = 0 → t.tzNonneg = true) :=
    of_decide_eq_true ht
  obtain ⟨h1, h2, h3, h4, h5, h6, h7, h8, h9, h10, h11, h12⟩ := hb
  intro c hc
  simp only [isoformatChars, List.mem_append, List.mem_cons] at hc
  rcases hc with h|rfl|h|rfl|h|rfl|h|rfl|h|rfl|h|rfl|h|rfl|h
  all_goals first
    | exact mem_pad4_sep _ (by omega) _ h
    | exact mem_pad2_sep _ (by
        have := daysInMonth_le t.year t.month
        omega) _ h
    | decide
    | (refine ⟨?_, ?_⟩ <;> (split <;> decide))

theorem isoformatChars_ne_nil (t : PyDateTime) : isoformatChars t ≠ [] := by
  simp [isoformatChars, pad4]

/-- C1 (amended): the round trip does hold for every mirror line the Mutator
can emit whose project id consists of word characters: the Sync Log Reader
parses the line back to a Commit equal (under `Commit.__eq__`) to the
original. -/
theorem c1_round_trip_word_project (h pid sha : String) (t : PyDateTime)
    (hh : h.data ≠ [] ∧ ∀ x ∈ h.data, x ≠ ',')
    (hp : pid.data ≠ [] ∧ ∀ x ∈ pid.data, isWordChar x = true)
    (hs : sha.data ≠ [] ∧ sha.data.all isHexLower = true)
    (ht : t.valid = true) :
    get_synced_commits [mirrorLogLine h (Commit.mk pid sha t none)] =
      .ok [Commit.mk pid sha t (some h)] ∧
    commitEq (Commit.mk pid sha t (some h)) (Commit.mk pid sha t none) = true := by
  constructor
  · have hdata : (mirrorLogLine h (Commit.mk pid sha t none)).data =
        h.data ++ ',' :: (isoformatChars t ++ ',' ::
          (syncedMessageLit ++ (pid.data ++ ':' :: sha.data))) := by
      simp [mirrorLogLine, PyDateTime.isoformat, add_commit, syncedMessageLit,
        String.data_append]
    have e1 : ∀ rest : List Char,
        spanWhile (fun c => !(c == ',')) (h.data ++ ',' :: rest) = (h.data, ',' :: rest) :=
      fun rest => spanWhile_append _ h.data
        (fun x hx => by simp [hh.2 x hx]) ',' (by decide) rest
    have e2 : ∀ rest : List Char,
        spanWhile (fun c => !(c == ',')) (isoformatChars t ++ ',' :: rest) =
          (isoformatChars t, ',' :: rest) :=
      fun rest => spanWhile_append _ (isoformatChars t)
        (fun x hx => by simp [(isoformatChars_sep t ht x hx).1]) ',' (by decide) rest
    have e3 : spanWhile isWordChar (pid.data ++ ':' :: sha.data) =
        (pid.data, ':' :: sha.data) :=
      spanWhile_append _ pid.data (fun x hx => hp.2 x hx) ':' (by decide) _
    have hmatch : matchSyncedLine (mirrorLogLine h (Commit.mk pid sha t none)).data =
        some ⟨h.data, isoformatChars t, pid.data, sha.data⟩ := by
      simp [matchSyncedLine, hdata, e1, e2, e3, stripLit_append, hh.1, hp.1, hs.1, hs.2,
        isoformatChars_ne_nil]
    simp [get_synced_commits, hmatch, fromisoformat_isoformat t ht]
  · simp [commitEq, Commit.toTuple]

/-! ## Set-by-key lemmas -/

deriving instance DecidableEq for Except

theorem commitEq_iff (c d : Commit) : commitEq c d = true ↔ c.toTuple = d.toTuple := by
  simp [commitEq]

theorem mem_keysOf (k : CommitKey) (l : List Commit) :
    k ∈ keysOf l ↔ ∃ c ∈ l, c.toTuple = k := by
  simp [keysOf]

theorem mem_shasOf (s : String) (l : List Commit) :
    s ∈ shasOf l ↔ ∃ c ∈ l, c.sha = s := by
  simp [shasOf]

theorem mem_of_mem_dedupByKey (c : Commit) (l : List Commit) (hc : c ∈ dedupByKey l) :
    c ∈ l := by
  induction l with
  | nil => simp [dedupByKey] at hc
  | cons a as ih =>
    rw [dedupByKey] at hc
    rcases List.mem_cons.mp hc with rfl | hmem
    · simp
    · have h2 := List.mem_filter.mp hmem
      exact List.mem_cons_of_mem _ (ih h2.1)

theorem exists_rep_dedupByKey (c : Commit) (l : List Commit) (hc : c ∈ l) :
    ∃ d ∈ dedupByKey l, commitEq d c = true := by
  induction l with
  | nil => cases hc
  | cons a as ih =>
    rw [dedupByKey]
    rcases List.mem_cons.mp hc with heq | hmem
    · exact ⟨a, by simp, by simp [commitEq, heq]⟩
    · obtain ⟨d, hd, hde⟩ := ih hmem
      cases he : commitEq a d with
      | true =>
        refine ⟨a, by simp, ?_⟩
        rw [commitEq_iff] at he hde ⊢
        rw [he, hde]
      | false =>
        exact ⟨d, List.mem_cons_of_mem _ (List.mem_filter.mpr ⟨hd, by simp [he]⟩), hde⟩

theorem keysOf_dedupByKey (l : List Commit) : keysOf (dedupByKey l) = keysOf l := by
  ext k
  rw [mem_keysOf, mem_keysOf]
  constructor
  · rintro ⟨c, hc, rfl⟩
    exact ⟨c, mem_of_mem_dedupByKey c l hc, rfl⟩
  · rintro ⟨c, hc, rfl⟩
    obtain ⟨d, hd, hde⟩ := exists_rep_dedupByKey c l hc
    exact ⟨d, hd, (commitEq_iff d c).mp hde⟩

theorem mem_setDiffC (c : Commit) (xs ys : List Commit) :
    c ∈ setDiffC xs ys ↔ c ∈ xs ∧ c.toTuple ∉ keysOf ys := by
  rw [setDiffC, List.mem_filter]
  simp only [Bool.not_eq_true', List.any_eq_false, mem_keysOf]
  constructor
  · rintro ⟨h1, h2⟩
    refine ⟨h1, ?_⟩
    rintro ⟨d, hd, hde⟩
    have := h2 d hd
    rw [commitEq_iff] at this
    · exact absurd hde.symm (by simpa using this)
  · rintro ⟨h1, h2⟩
    refine ⟨h1, fun d hd => ?_⟩
    intro hc
    exact h2 ⟨d, hd, ((commitEq_iff c d).mp hc).symm⟩

theorem keysOf_setDiffC (xs ys : List Commit) :
    keysOf (setDiffC xs ys) = to_create (keysOf xs) (keysOf ys) := by
  ext k
  rw [to_create, Finset.mem_sdiff, mem_keysOf, mem_keysOf]
  constructor
  · rintro ⟨c, hc, rfl⟩
    obtain ⟨h1, h2⟩ := (mem_setDiffC c xs ys).mp hc
    exact ⟨⟨c, h1, rfl⟩, h2⟩
  · rintro ⟨⟨c, hc, rfl⟩, h2⟩
    exact ⟨c, (mem_setDiffC c xs ys).mpr ⟨hc, h2⟩, rfl⟩

theorem setDiffC_eq_nil (xs ys : List Commit) (h : ∀ c ∈ xs, c.toTuple ∈ keysOf ys) :
    setDiffC xs ys = [] := by
  rw [List.eq_nil_iff_forall_not_mem]
  intro c hc
  obtain ⟨h1, h2⟩ := (mem_setDiffC c xs ys).mp hc
  exact h2 (h c h1)

/-! ## Run-level lemmas and claim theorems -/

theorem mainRun_eq (env : RunEnv) (src syn : List Commit)
    (hs : sourceCommitsOf env = .ok src) (hy : syncedRawOf env = .ok syn) :
    mainRun env = runReconcile env.config src syn env.answer := by
  simp [mainRun, hs, hy]

/-- C2 (amended): when the sha set-difference invariant is violated the run
does abort at the assertion before any commit is created — no `add_commit`
call is ever issued and the run never completes normally — but the check sits
after the removal phase, so removals may already have been performed. -/
theorem c2_no_creation_when_invariant_violated (env : RunEnv) (src syn : List Commit)
    (hs : sourceCommitsOf env = .ok src) (hy : syncedRawOf env = .ok syn)
    (hviol : shaInvariant (dedupByKey src) (dedupByKey syn) = false) :
    (∀ m ∈ (mainRun env).mutations, m.isAdd = false) ∧
    (∀ l : List Mutation, mainRun env ≠ .exited l) := by
  rw [mainRun_eq env src syn hs hy]
  have hgen : ∀ muts : List Mutation, (∀ m ∈ muts, m.isAdd = false) →
      (∀ m ∈ (createPhase env.config (dedupByKey src) (dedupByKey syn) muts).mutations,
        m.isAdd = false) ∧
      (∀ l : List Mutation,
        createPhase env.config (dedupByKey src) (dedupByKey syn) muts ≠ .exited l) := by
    intro muts hmuts
    rw [createPhase, if_neg (by simp [hviol])]
    refine ⟨hmuts, ?_⟩
    intro l h
    cases h
  simp only [runReconcile]
  split
  · exact hgen [] (by simp)
  · split
    · refine ⟨?_, ?_⟩
      · intro m hm
        simp [RunResult.mutations] at hm
      · intro l h
        cases h
    · split
      · apply hgen
        intro m hm
        obtain ⟨c, _, rfl⟩ := List.mem_map.mp hm
        rfl
      · refine ⟨?_, ?_⟩
        · intro m hm
          simp [RunResult.mutations] at hm
        · intro l h
          cases h

/-- C4 (amended): a non-empty removal set declined by the operator (any
answer other than `y`) ends the run through `sys.exit("Quitting.")` — exit
status 1, not 0 — with no mutation of the sync repository. -/
theorem c4_declined_quit_no_mutation (env : RunEnv) (src syn : List Commit)
    (hs : sourceCommitsOf env = .ok src) (hy : syncedRawOf env = .ok syn)
    (hne : setDiffC (dedupByKey syn) (dedupByKey src) ≠ [])
    (hlk : firstMissingProject env.config.projects
      (setDiffC (dedupByKey syn) (dedupByKey src)) = none)
    (ha : env.answer ≠ "y") :
    mainRun env = .quit [] ∧ (mainRun env).exitCode = 1 ∧ (mainRun env).mutations = [] := by
  have hmain : mainRun env = .quit [] := by
    rw [mainRun_eq env src syn hs hy]
    simp [runReconcile, hne, hlk, ha]
  exact ⟨hmain, by rw [hmain]; rfl, by rw [hmain]; rfl⟩

/-- C5 (amended): a cross-project sha collision trips the fatal assertion
exactly when the shared sha is already present among the synced commits while
the colliding source commit itself is not synced; in that situation (with
every synced commit still present in some source, so no removal prompt
intervenes) the run ends in the assertion failure with no mutation. -/
theorem c5_collision_assert_when_partly_synced (env : RunEnv) (src syn : List Commit)
    (c1 c2 : Commit)
    (hs : sourceCommitsOf env = .ok src) (hy : syncedRawOf env = .ok syn)
    (hc1 : c1 ∈ src) (hc2 : c2 ∈ src)
    (hproj : c1.project_id ≠ c2.project_id) (hsha : c1.sha = c2.sha)
    (h1n : c1.toTuple ∉ keysOf syn) (h2y : c2.toTuple ∈ keysOf syn)
    (hsub : ∀ d ∈ syn, d.toTuple ∈ keysOf src) :
    mainRun env = .assertFailed [] := by
  have hrem : setDiffC (dedupByKey syn) (dedupByKey src) = [] := by
    apply setDiffC_eq_nil
    intro d hd
    rw [keysOf_dedupByKey]
    exact hsub d (mem_of_mem_dedupByKey d syn hd)
  have hviol : shaInvariant (dedupByKey src) (dedupByKey syn) = false := by
    apply decide_eq_false
    intro heq
    obtain ⟨d, hd, hde⟩ := exists_rep_dedupByKey c1 src hc1
    have hdt : d.toTuple = c1.toTuple := (commitEq_iff d c1).mp hde
    have hdsha : d.sha = c1.sha := congrArg (fun k => k.2.1) hdt
    have hdmem : d ∈ setDiffC (dedupByKey src) (dedupByKey syn) :=
      (mem_setDiffC d _ _).mpr ⟨hd, by rw [keysOf_dedupByKey, hdt]; exact h1n⟩
    have hLHS : c1.sha ∈ shasOf (setDiffC (dedupByKey src) (dedupByKey syn)) :=
      (mem_shasOf _ _).mpr ⟨d, hdmem, hdsha⟩
    obtain ⟨e, he, het⟩ := (mem_keysOf _ syn).mp h2y
    have hesha : e.sha = c2.sha := congrArg (fun k => k.2.1) het
    obtain ⟨f, hf, hfe⟩ := exists_rep_dedupByKey e syn he
    have hfsha : f.sha = e.sha := congrArg (fun k => k.2.1) ((commitEq_iff f e).mp hfe)
    have hsyn : c1.sha ∈ shasOf (dedupByKey syn) :=
      (mem_shasOf _ _).mpr ⟨f, hf, by rw [hfsha, hesha, ← hsha]⟩
    rw [heq, Finset.mem_sdiff] at hLHS
    exact hLHS.2 hsyn
  rw [mainRun_eq env src syn hs hy]
  simp [runReconcile, hrem, createPhase, hviol]

/-- C10: an orphaned mirror commit whose encoded project id is not among the
configured projects makes the removal display loop's dict lookup raise
`KeyError`, before the operator is prompted (the outcome is independent of
the answer) and before any mutation of the sync repository. -/
theorem c10_orphan_unknown_project_keyerror (env : RunEnv) (src syn : List Commit)
    (c : Commit)
    (hs : sourceCommitsOf env = .ok src) (hy : syncedRawOf env = .ok syn)
    (hc : c ∈ setDiffC (dedupByKey syn) (dedupByKey src))
    (hmiss : lookupGitRoot env.config.projects c.project_id = none) :
    ∃ pid, ∀ a : String,
      mainRun { env with answer := a } = .error (.keyError pid) [] := by
  have hne : setDiffC (dedupByKey syn) (dedupByKey src) ≠ [] := by
    intro h0
    rw [h0] at hc
    cases hc
  have hsome : (firstMissingProject env.config.projects
      (setDiffC (dedupByKey syn) (dedupByKey src))).isSome := by
    rw [firstMissingProject, List.find?_isSome]
    exact ⟨c, hc, by simp [hmiss]⟩
  obtain ⟨d, hd⟩ := Option.isSome_iff_exists.mp hsome
  refine ⟨d.project_id, fun a => ?_⟩
  have hs' : sourceCommitsOf { env with answer := a } = .ok src := hs
  have hy' : syncedRawOf { env with answer := a } = .ok syn := hy
  rw [mainRun_eq { env with answer := a } src syn hs' hy']
  simp [runReconcile, hne, hd]

/-! ## Concrete scenarios, counterexamples and witnesses -/

def dt2024 : PyDateTime := ⟨2024, 1, 1, 0, 0, 0, true, 0, 0⟩

def dt2020 : PyDateTime := ⟨2020, 6, 15, 12, 30, 5, false, 5, 0⟩

/-- C1 (counterexample): for a Mutator-emitted mirror commit whose project id
contains a character outside `\w` (here `a-b`), the resulting log line does
not match `SYNCED_LOG_RE` at all, so the Sync Log Reader yields no Commit —
the round trip fails. -/
theorem c1_mirror_line_nonword_project_unparsed :
    matchSyncedLine (mirrorLogLine "ffff" (Commit.mk "a-b" "ab" dt2024 none)).data = none ∧
    get_synced_commits [mirrorLogLine "ffff" (Commit.mk "a-b" "ab" dt2024 none)] = .ok [] :=
  ⟨by decide, by decide⟩

theorem c1_round_trip_witness :
    get_synced_commits [mirrorLogLine "ffff" (Commit.mk "alpha" "aaa111" dt2024 none)] =
      .ok [Commit.mk "alpha" "aaa111" dt2024 (some "ffff")] ∧
    commitEq (Commit.mk "alpha" "aaa111" dt2024 (some "ffff"))
      (Commit.mk "alpha" "aaa111" dt2024 none) = true :=
  c1_round_trip_word_project "ffff" "alpha" "aaa111" dt2024
    ⟨by decide, by decide⟩ ⟨by decide, by decide⟩ ⟨by decide, by decide⟩ (by decide)

def cC2src : Commit := ⟨"alpha", "aa", dt2024, none⟩

def cC2syn : Commit := ⟨"alpha", "aa", dt2020, some "ffff"⟩

/-- A run where source and sync hold the same `alpha:aa` commit under two
different timestamps: the sha invariant is violated and the removal set is
non-empty at once. -/
def cfgC2 : Config :=
  { include_emails := ["a@x.com"]
    projects := [⟨"alpha", "r1"⟩]
    sync_repo := "sync" }

def envC2 : RunEnv :=
  { config := cfgC2
    sourceLog := fun r => if r = "r1" then ["aa,a@x.com,2024-01-01T00:00:00+00:00"] else []
    syncLog := ["ffff,2020-06-15T12:30:05-05:00,Synced from alpha:aa"]
    answer := "y" }

/-- C2 (counterexample): in `envC2` the sha set-difference invariant is
violated, yet the run performs a removal before failing the assertion — the
check does not precede every mutation. -/
theorem c2_removal_precedes_assert :
    sourceCommitsOf envC2 = .ok [cC2src] ∧ syncedRawOf envC2 = .ok [cC2syn] ∧
    shaInvariant (dedupByKey [cC2src]) (dedupByKey [cC2syn]) = false ∧
    mainRun envC2 = .assertFailed [Mutation.removeCall "sync" (some "ffff")] :=
  ⟨by decide, by decide, by decide, by decide⟩

theorem c2_no_creation_witness :
    (∀ m ∈ (mainRun envC2).mutations, m.isAdd = false) ∧
    (∀ l : List Mutation, mainRun envC2 ≠ .exited l) :=
  c2_no_creation_when_invariant_violated envC2 [cC2src] [cC2syn]
    (by decide) (by decide) (by decide)

def cAlpha : Commit := ⟨"alpha", "aaa111", dt2024, none⟩

/-- C3: `add_commit` writes the exact message and forces the author date, but
the committer-date override key it sets is the misspelled
`GIT_COMMIRTER_DATE`; the real `GIT_COMMITTER_DATE` variable is absent from
the overriding entries, so the committer date is not pinned to the Commit's
timestamp. -/
theorem c3_committer_date_env_misspelled :
    (add_commit cAlpha).message = "Synced from alpha:aaa111" ∧
    envLookup "GIT_AUTHOR_DATE" (add_commit cAlpha) = some "2024-01-01T00:00:00+00:00" ∧
    envLookup "GIT_COMMIRTER_DATE" (add_commit cAlpha) = some "2024-01-01T00:00:00+00:00" ∧
    envLookup "GIT_COMMITTER_DATE" (add_commit cAlpha) = none :=
  ⟨by decide, by decide, by decide, by decide⟩

def cC4syn : Commit := ⟨"alpha", "aa", dt2024, some "ffff"⟩

def cfgC4 : Config :=
  { include_emails := ["a@x.com"]
    projects := [⟨"alpha", "r1"⟩]
    sync_repo := "sync" }

/-- An orphaned mirror commit with no surviving source commit, operator
answering `n`. -/
def envC4 : RunEnv :=
  { config := cfgC4
    sourceLog := fun _ => []
    syncLog := ["ffff,2024-01-01T00:00:00+00:00,Synced from alpha:aa"]
    answer := "n" }

/-- C4 (counterexample): declining the removal prompt performs no mutation
but exits through `sys.exit("Quitting.")`, whose process exit status is 1,
not the claimed 0. -/
theorem c4_declined_exit_code_one :
    mainRun envC4 = .quit [] ∧ (mainRun envC4).exitCode ≠ 0 ∧
    (mainRun envC4).mutations = [] :=
  ⟨by decide, by decide, by decide⟩

theorem c4_declined_witness :
    mainRun envC4 = .quit [] ∧ (mainRun envC4).exitCode = 1 ∧
    (mainRun envC4).mutations = [] :=
  c4_declined_quit_no_mutation envC4 [] [cC4syn]
    (by decide) (by decide) (by decide) (by decide) (by decide)

def cP : Commit := ⟨"p", "aa", dt2024, none⟩

def cQ : Commit := ⟨"q", "aa", dt2020, none⟩

/-- Two configured projects both holding a qualifying commit with sha `aa`,
and a sync repository already holding both mirrors. -/
def cfgC5 : Config :=
  { include_emails := ["a@x.com"]
    projects := [⟨"p", "r1"⟩, ⟨"q", "r2"⟩]
    sync_repo := "sync" }

def envC5 : RunEnv :=
  { config := cfgC5
    sourceLog := fun r =>
      if r = "r1" then ["aa,a@x.com,2024-01-01T00:00:00+00:00"]
      else if r = "r2" then ["aa,a@x.com,2020-06-15T12:30:05-05:00"] else []
    syncLog := ["f1af,2024-01-01T00:00:00+00:00,Synced from p:aa",
                "f2af,2020-06-15T12:30:05-05:00,Synced from q:aa"]
    answer := "n" }

/-- C5 (counterexample): with both colliding commits already mirrored, the
run passes the assertion and completes normally — a cross-project sha
collision does not trigger the fatal invariant check for every sync-repo
content. -/
theorem c5_collision_unchecked_when_fully_synced :
    sourceCommitsOf envC5 = .ok [cP, cQ] ∧ cP.project_id ≠ cQ.project_id ∧
    cP.sha = cQ.sha ∧ mainRun envC5 = .exited [] :=
  ⟨by decide, by decide, by decide, by decide⟩

def cPsyn : Commit := ⟨"p", "aa", dt2024, some "f1af"⟩

/-- As `envC5` but with only `p`'s mirror present in the sync repository. -/
def envC5w : RunEnv :=
  { config := cfgC5
    sourceLog := fun r =>
      if r = "r1" then ["aa,a@x.com,2024-01-01T00:00:00+00:00"]
      else if r = "r2" then ["aa,a@x.com,2020-06-15T12:30:05-05:00"] else []
    syncLog := ["f1af,2024-01-01T00:00:00+00:00,Synced from p:aa"]
    answer := "n" }

theorem c5_collision_witness : mainRun envC5w = .assertFailed [] :=
  c5_collision_assert_when_partly_synced envC5w [cP, cQ] [cPsyn] cQ cP
    (by decide) (by decide) (by decide) (by decide) (by decide) (by decide)
    (by decide) (by decide) (by decide)

/-- C6: the Reconciler's two difference sets are disjoint and
`to_create ∪ (A ∩ B) = A`, for all commit-key sets. -/
theorem c6_reconciler_set_algebra (A B : Finset CommitKey) :
    Disjoint (to_create A B) (to_remove A B) ∧ to_create A B ∪ (A ∩ B) = A := by
  refine ⟨?_, ?_⟩
  · rw [to_create, to_remove]
    exact disjoint_sdiff_sdiff
  · rw [to_create]
    exact Finset.sdiff_union_inter A B

/-- C8: `Commit.__eq__` holds iff the `(project_id, sha, timestamp)` triples
match; `sync_target_sha` influences neither equality nor the hash, and a
source-derived Commit and its sync-derived counterpart collapse into one
element under Python-set deduplication. -/
theorem c8_commit_equality_ignores_sync_target :
    (∀ c1 c2 : Commit, commitEq c1 c2 = true ↔
      (c1.project_id, c1.sha, c1.timestamp) = (c2.project_id, c2.sha, c2.timestamp)) ∧
    (∀ (c : Commit) (s : Option String),
      commitEq { c with sync_target_sha := s } c = true ∧
      commitHash { c with sync_target_sha := s } = commitHash c) ∧
    (∀ (pid sha : String) (ts : PyDateTime) (s : String),
      dedupByKey [Commit.mk pid sha ts none, Commit.mk pid sha ts (some s)] =
        [Commit.mk pid sha ts none]) := by
  refine ⟨?_, ?_, ?_⟩
  · intro c1 c2
    simp [commitEq, Commit.toTuple]
  · intro c s
    exact ⟨by simp [commitEq, Commit.toTuple], by simp [commitHash, Commit.toTuple]⟩
  · intro pid sha ts s
    have he : commitEq (Commit.mk pid sha ts none) (Commit.mk pid sha ts (some s)) = true := by
      simp [commitEq, Commit.toTuple]
    simp [dedupByKey, he]

/-- C9: a line matching `SOURCE_LOG_RE` (whose timestamp field admits any
non-space text) with an included email can still make
`get_commits_from_source` raise `ValueError` from `fromisoformat` — regex
acceptance does not guarantee the line parses. -/
theorem c9_regex_accepted_line_valueerror :
    matchSourceLine ("aa,a@x.com,notadate" : String).data =
      some ⟨"aa".data, "a@x.com".data, "notadate".data⟩ ∧
    get_commits_from_source "alpha" ["a@x.com"] ["aa,a@x.com,notadate"] =
      .error (.valueError "notadate") :=
  ⟨by decide, by decide⟩

def cC10 : Commit := ⟨"beta", "aa", dt2024, some "ffff"⟩

/-- An orphaned mirror whose encoded project id `beta` is not configured. -/
def cfgC10 : Config :=
  { include_emails := ["a@x.com"]
    projects := [⟨"alpha", "r1"⟩]
    sync_repo := "sync" }

def envC10 : RunEnv :=
  { config := cfgC10
    sourceLog := fun _ => []
    syncLog := ["ffff,2024-01-01T00:00:00+00:00,Synced from beta:aa"]
    answer := "y" }

theorem c10_orphan_keyerror_witness :
    ∃ pid, ∀ a : String,
      mainRun { envC10 with answer := a } = .error (.keyError pid) [] :=
  c10_orphan_unknown_project_keyerror envC10 [] [cC10] cC10
    (by decide) (by decide) (by decide) (by decide)

/-! ## C7: the email filter -/

theorem mem_get_commits_from_source (pid : String) (incl : List String)
    (lines : List String) (cs : List Commit)
    (h : get_commits_from_source pid incl lines = .ok cs) (c : Commit) (hc : c ∈ cs) :
    ∃ line ∈ lines, ∃ g : SourceGroups, matchSourceLine line.data = some g ∧
      String.mk g.email ∈ incl ∧ c.project_id = pid ∧ c.sha = String.mk g.sha := by
  induction lines generalizing cs with
  | nil =>
    simp only [get_commits_from_source] at h
    injection h with h0
    subst h0
    cases hc
  | cons line rest ih =>
    rw [get_commits_from_source] at h
    cases hm : matchSourceLine line.data with
    | none => simp [hm] at h
    | some g =>
      simp only [hm] at h
      by_cases hin : String.mk g.email ∈ incl
      · rw [if_pos hin] at h
        cases hts : fromisoformatChars g.timestamp with
        | none => simp [hts] at h
        | some ts =>
          simp only [hts] at h
          cases hrec : get_commits_from_source pid incl rest with
          | error e => simp [hrec] at h
          | ok cs' =>
            simp only [hrec] at h
            injection h with h0
            subst h0
            rcases List.mem_cons.mp hc with rfl | hmem
            · exact ⟨line, by simp, g, hm, hin, rfl, rfl⟩
            · obtain ⟨l, hl, g', hg', hin', hpid', hsha'⟩ := ih cs' hrec hmem
              exact ⟨l, List.mem_cons_of_mem _ hl, g', hg', hin', hpid', hsha'⟩
      · rw [if_neg hin] at h
        obtain ⟨l, hl, g', hg', hin', hpid', hsha'⟩ := ih cs h hc
        exact ⟨l, List.mem_cons_of_mem _ hl, g', hg', hin', hpid', hsha'⟩

theorem mem_readSources (incl : List String) (logs : String → List String)
    (ps : List Project) (cs : List Commit)
    (h : readSources incl logs ps = .ok cs) (c : Commit) (hc : c ∈ cs) :
    ∃ p ∈ ps, ∃ cs' : List Commit,
      get_commits_from_source p.id incl (logs p.git_root) = .ok cs' ∧ c ∈ cs' := by
  induction ps generalizing cs with
  | nil =>
    simp only [readSources] at h
    injection h with h0
    subst h0
    cases hc
  | cons p rest ih =>
    rw [readSources] at h
    cases h1 : get_commits_from_source p.id incl (logs p.git_root) with
    | error e => simp [h1] at h
    | ok cs1 =>
      simp only [h1] at h
      cases h2 : readSources incl logs rest with
      | error e => simp [h2] at h
      | ok cs2 =>
        simp only [h2] at h
        injection h with h0
        subst h0
        rcases List.mem_append.mp hc with hmem | hmem
        · exact ⟨p, by simp, cs1, h1, hmem⟩
        · obtain ⟨p', hp', cs', hcs', hmem'⟩ := ih cs2 h2 hmem
          exact ⟨p', List.mem_cons_of_mem _ hp', cs', hcs', hmem'⟩

/-- C7: a source log line whose author email is outside the include-set
yields no Commit (the Reader's output over the remaining lines is unchanged),
and consequently every commit in the Reconciler's `to_create` set traces back
to some configured project's log line that matched the regex with an email in
the include-set — a commit from a non-included line never reaches
`to_create`, whichever repository it came from. -/
theorem c7_email_filter_excludes :
    (∀ (pid : String) (incl : List String) (line : String) (rest : List String)
        (g : SourceGroups), matchSourceLine line.data = some g →
      String.mk g.email ∉ incl →
      get_commits_from_source pid incl (line :: rest) =
        get_commits_from_source pid incl rest) ∧
    (∀ (env : RunEnv) (tc : List Commit), toCreateOf env = .ok tc →
      ∀ c ∈ tc, ∃ p ∈ env.config.projects, ∃ line ∈ env.sourceLog p.git_root,
        ∃ g : SourceGroups, matchSourceLine line.data = some g ∧
          String.mk g.email ∈ env.config.include_emails ∧
          c.project_id = p.id ∧ c.sha = String.mk g.sha) := by
  constructor
  · intro pid incl line rest g hm hnin
    simp only [get_commits_from_source, hm]
    rw [if_neg hnin]
  · intro env tc htc c hc
    rw [toCreateOf] at htc
    cases hs : sourceCommitsOf env with
    | error e => simp [hs] at htc
    | ok src =>
      simp only [hs] at htc
      cases hy : syncedRawOf env with
      | error e => simp [hy] at htc
      | ok syn =>
        simp only [hy] at htc
        injection htc with h0
        subst h0
        have hsrc : c ∈ src :=
          mem_of_mem_dedupByKey c src ((mem_setDiffC c _ _).mp hc).1
        obtain ⟨p, hp, cs', hcs', hmem'⟩ :=
          mem_readSources env.config.include_emails env.sourceLog env.config.projects
            src hs c hsrc
        obtain ⟨line, hline, g, hg, hin, hpid, hsha⟩ :=
          mem_get_commits_from_source p.id env.config.include_emails
            (env.sourceLog p.git_root) cs' hcs' c hmem'
        exact ⟨p, hp, line, hline, g, hg, hin, hpid, hsha⟩

theorem c7_email_filter_witness :
    get_commits_from_source "alpha" ["a@x.com"]
      ["aa,b@x.com,2024-01-01T00:00:00+00:00", "bb,a@x.com,2024-01-01T00:00:00+00:00"] =
    get_commits_from_source "alpha" ["a@x.com"]
      ["bb,a@x.com,2024-01-01T00:00:00+00:00"] :=
  c7_email_filter_excludes.1 "alpha" ["a@x.com"] "aa,b@x.com,2024-01-01T00:00:00+00:00"
    ["bb,a@x.com,2024-01-01T00:00:00+00:00"]
    ⟨"aa".data, "b@x.com".data, "2024-01-01T00:00:00+00:00".data⟩
    (by decide) (by decide)
